import Mathlib

/-!
# TerminAI — terminal-activity logging and context-assembly subsystem

Shallow embedding of the logging subsystem of the `terminAI` repository:

* the shell logging script generated by `create_logging_script`
  (`src/terminai/cli/commands/init.py`): per-command record appending,
  ring-log rotation via `tail -n 5`, output-blob capture, and
  garbage collection of orphaned output blobs via
  `grep -q "|$file_id|" ~/.terminai/commands.log`;
* the context reader `get_recent_commands_with_outputs`
  (`src/terminai/cli/commands/init.py`, the implementation imported by
  `debug.py`): line parsing `timestamp|exit_code|cmd_id|command`,
  malformed-line skipping, limit capping, output-blob attachment;
* the prompt assembler `build_debug_prompt`
  (`src/terminai/cli/commands/debug.py`): system-information block,
  numbered history rendering, 500-character output truncation.

Files are modelled as values: the command log as a `List String` of its
lines (without trailing newline terminators; the writer emits one line per
record, so the model is faithful for fields that contain no newline, which
the relevant theorems assume explicitly), the set of output-blob files as
a list of `(command_id, content)` pairs, and file readability as `Option`.
Python string primitives used by the source (`str.strip`, `str.split('|', 3)`,
`int(...)`, slicing, truthiness) are modelled on `List Char` / code points,
matching Python's code-point semantics for the ASCII data the subsystem
handles.
-/

namespace TerminAI

/-- Characters stripped by Python `str.strip()`: exactly the code points for
which `str.isspace()` holds in CPython — TAB..CR (U+0009–U+000D),
FS..US (U+001C–U+001F), SPACE, NEL (U+0085), NBSP (U+00A0), OGHAM SPACE
(U+1680), the U+2000–U+200A spaces, LINE/PARAGRAPH SEPARATOR (U+2028,
U+2029), NARROW NBSP (U+202F), MMSP (U+205F) and IDEOGRAPHIC SPACE
(U+3000). -/
def isPySpace (c : Char) : Bool :=
  c.toNat == 9 || c.toNat == 10 || c.toNat == 11 || c.toNat == 12 ||
  c.toNat == 13 || c.toNat == 28 || c.toNat == 29 || c.toNat == 30 ||
  c.toNat == 31 || c.toNat == 32 || c.toNat == 133 || c.toNat == 160 ||
  c.toNat == 5760 || c.toNat == 8192 || c.toNat == 8193 || c.toNat == 8194 ||
  c.toNat == 8195 || c.toNat == 8196 || c.toNat == 8197 || c.toNat == 8198 ||
  c.toNat == 8199 || c.toNat == 8200 || c.toNat == 8201 || c.toNat == 8202 ||
  c.toNat == 8232 || c.toNat == 8233 || c.toNat == 8239 || c.toNat == 8287 ||
  c.toNat == 12288

/-- Python `str.strip()` on a character list: drop whitespace from both ends. -/
def pyStripList (l : List Char) : List Char :=
  ((l.dropWhile isPySpace).reverse.dropWhile isPySpace).reverse

/-- Python `str.strip()`. -/
def pyStrip (s : String) : String := ⟨pyStripList s.data⟩

/-- Split off the part of `l` before the first occurrence of `c`
(`none` when `c` does not occur). -/
def splitOnceChar (c : Char) : List Char → Option (List Char × List Char)
  | [] => none
  | x :: xs =>
    if x == c then some ([], xs)
    else
      match splitOnceChar c xs with
      | none => none
      | some (a, b) => some (x :: a, b)

/-- Python `str.split(sep, maxsplit)` on a character list: at most `n` splits,
so at most `n + 1` parts; the final part keeps any further separators. -/
def splitLimitChar (c : Char) : Nat → List Char → List (List Char)
  | 0, l => [l]
  | n + 1, l =>
    match splitOnceChar c l with
    | none => [l]
    | some (a, b) => a :: splitLimitChar c n b

/-- Python `line.split('|', 3)` as used by the log reader. -/
def pySplitPipe3 (s : String) : List String :=
  (splitLimitChar '|' 3 s.data).map String.mk

/-- Decimal digit test, Python `int()`'s accepted (ASCII) digits. -/
def isDigitCh (c : Char) : Bool := 48 ≤ c.toNat && c.toNat ≤ 57

/-- Numeric value of a decimal digit character. -/
def digitVal (c : Char) : Nat := c.toNat - 48

/-- Value of a big-endian decimal digit string. -/
def digitsVal (l : List Char) : Nat := l.foldl (fun a c => a * 10 + digitVal c) 0

/-- Parse a non-empty all-digit character list as a natural number. -/
def parseNatDigits (l : List Char) : Option Nat :=
  if !l.isEmpty && l.all isDigitCh then some (digitsVal l) else none

/-- Model of Python `int(s)` for decimal strings: strip whitespace, optional
sign, then a non-empty digit string; `none` models the `ValueError` raised
otherwise. (Python additionally accepts underscore digit grouping and
non-ASCII digits; the subsystem's exit-code fields are plain ASCII
decimals, for which the semantics agree.) -/
def pyInt (s : String) : Option Int :=
  match pyStripList s.data with
  | [] => none
  | c :: rest =>
    if c == '-' then (parseNatDigits rest).map (fun n => -(n : Int))
    else if c == '+' then (parseNatDigits rest).map (fun n => (n : Int))
    else (parseNatDigits (c :: rest)).map (fun n => (n : Int))

/-- Big-endian decimal digit characters of `n` (empty for `0`); the fuel
argument makes the `n / 10` recursion structural. -/
def natDigitsAux : Nat → Nat → List Char
  | 0, _ => []
  | fuel + 1, n =>
    if n = 0 then [] else natDigitsAux fuel (n / 10) ++ [Nat.digitChar (n % 10)]

/-- Decimal rendering of a natural number. -/
def natToStr (n : Nat) : String :=
  if n = 0 then "0" else ⟨natDigitsAux (n + 1) n⟩

/-- Decimal rendering of an integer, as the shell writes `${exit_code}`
and Python writes `f"{n}"`. -/
def intToStr (i : Int) : String :=
  if i < 0 then "-" ++ natToStr i.natAbs else natToStr i.natAbs

/-- Boolean prefix test on character lists. -/
def prefOf : List Char → List Char → Bool
  | [], _ => true
  | _ :: _, [] => false
  | a :: as, b :: bs => a == b && prefOf as bs

/-- Boolean substring test: does `n` occur contiguously in the second list?
Models `grep -q` with a pattern free of regex metacharacters (the command
ids it is used on are `date +%s%N` digit strings). -/
def containsSub (n : List Char) : List Char → Bool
  | [] => n.isEmpty
  | x :: xs => prefOf n (x :: xs) || containsSub n xs

/-- `[[ $cmd != terminai* ]]` negated: does the command text start with the
tool's own invocation name? -/
def startsWithTerminai (cmd : String) : Bool := prefOf "terminai".data cmd.data

/-- One invocation of the shell hook `terminai_log_command_output`:
the command text, exit code, timestamp from `date '+%Y-%m-%d %H:%M:%S'`,
fresh id from `date +%s%N`, and the captured `$TERM_OUTPUT` when non-empty. -/
structure RecordInput where
  ts : String
  exit : Int
  cmd_id : String
  cmd : String
  output : Option String
deriving DecidableEq, Repr

/-- The record line `"${timestamp}|${exit_code}|${cmd_id}|${cmd}"` appended
to `commands.log`. -/
def renderLine (r : RecordInput) : String :=
  r.ts ++ "|" ++ intToStr r.exit ++ "|" ++ r.cmd_id ++ "|" ++ r.cmd

/-- On-disk state of the logging subsystem: the lines of
`~/.terminai/commands.log` (oldest first) and the `output_<id>.log` blob
files as `(command_id, content)` pairs. -/
structure LogState where
  log : List String
  blobs : List (String × String)
deriving DecidableEq, Repr

/-- The last `n` elements of a list, in order: `tail -n`. -/
def takeLast (n : Nat) (l : List α) : List α := (l.reverse.take n).reverse

/-- `tail -n 5 commands.log > tmp && mv tmp commands.log`:
keep only the last 5 lines. -/
def rotate (log : List String) : List String := takeLast 5 log

/-- `grep -q "|$file_id|" ~/.terminai/commands.log`: does the pipe-delimited
id occur as a substring of some line of the log? -/
def grepPipedId (id : String) (lines : List String) : Bool :=
  lines.any (fun l => containsSub ("|" ++ id ++ "|").data l.data)

/-- Split a character list into its newline-separated lines (always at
least one, possibly empty, line). -/
def splitLinesChar : List Char → List (List Char)
  | [] => [[]]
  | c :: cs =>
    match splitLinesChar cs with
    | [] => [[]]
    | h :: t => if c == '\n' then [] :: h :: t else (c :: h) :: t

/-- Re-join lines with newlines. -/
def joinLinesChar : List (List Char) → List Char
  | [] => []
  | [l] => l
  | l :: ls => l ++ '\n' :: joinLinesChar ls

/-- `echo "$TERM_OUTPUT" | tail -n 50`: keep the last 50 lines of the
captured output. -/
def tailLines50 (s : String) : String :=
  ⟨joinLinesChar (takeLast 50 (splitLinesChar s.data))⟩

/-- Write (or overwrite) the blob file `output_<id>.log`. -/
def writeBlob (blobs : List (String × String)) (id content : String) :
    List (String × String) :=
  blobs.filter (fun b => b.1 != id) ++ [(id, content)]

/-- Blob files after the capture step: when `$TERM_OUTPUT` is non-empty the
script writes its 50-line tail to `output_${cmd_id}.log`. -/
def captureBlobs (s : LogState) (r : RecordInput) : List (String × String) :=
  match r.output with
  | none => s.blobs
  | some o => writeBlob s.blobs r.cmd_id (tailLines50 o)

/-- The garbage-collection loop: delete every `output_<id>.log` whose
`|id|` pattern `grep` does not find in the (rotated) command log. -/
def gcBlobs (log : List String) (blobs : List (String × String)) :
    List (String × String) :=
  blobs.filter (fun b => grepPipedId b.1 log)

/-- One run of `terminai_log_command_output`: commands starting with
`terminai` are filtered out entirely; otherwise append the record line,
rotate to the last 5 lines, capture the output blob, and garbage-collect
orphaned blobs — in the source's order. -/
def recordStep (s : LogState) (r : RecordInput) : LogState :=
  if startsWithTerminai r.cmd then s
  else
    let log1 := rotate (s.log ++ [renderLine r])
    { log := log1, blobs := gcBlobs log1 (captureBlobs s r) }

/-- Run the logger over a sequence of shell commands. -/
def runLog (s : LogState) : List RecordInput → LogState
  | [] => s
  | r :: rs => runLog (recordStep s r) rs

/-- A command record as parsed by the reader's first loop
(`init.py:get_recent_commands_with_outputs`, the dicts with keys
`timestamp`, `exit_code`, `cmd_id`, `command`). -/
structure ParsedCommand where
  timestamp : String
  exit_code : Int
  cmd_id : String
  command : String
deriving DecidableEq, Repr

/-- The reader's parse loop over the log lines: strip each line, skip blank
lines and lines with fewer than 4 pipe-delimited fields, parse the exit code
with `int(...)`. A 4-field line whose exit-code field is not an integer
raises `ValueError`, which escapes to the function's outer `except` — the
whole read then returns the empty result; `none` models that path. -/
def parseLines : List String → Option (List ParsedCommand)
  | [] => some []
  | l :: ls =>
    let s := pyStrip l
    if s.data.isEmpty then parseLines ls
    else
      match pySplitPipe3 s with
      | [ts, ec, id, cmd] =>
        match pyInt ec with
        | none => none
        | some n => (parseLines ls).map (fun cs => ⟨ts, n, id, cmd⟩ :: cs)
      | _ => parseLines ls

/-- An entry of the returned `result["commands"]` list: `timestamp`,
`command`, `exit_code`, and `output` when the blob file was readable and
non-blank. -/
structure HistoryEntry where
  timestamp : String
  command : String
  exit_code : Int
  output : Option String
deriving DecidableEq, Repr

/-- The dictionary returned by `get_recent_commands_with_outputs`. -/
structure ReadResult where
  commands : List HistoryEntry
  has_outputs : Bool
deriving DecidableEq, Repr

/-- Build one history entry: look up `output_<cmd_id>.log` (`blobs` returns
`none` for a missing or unreadable file, covering the inner `except`), and
attach the stripped content only when non-blank. -/
def mkEntry (blobs : String → Option String) (c : ParsedCommand) : HistoryEntry :=
  { timestamp := c.timestamp
    command := c.command
    exit_code := c.exit_code
    output :=
      match blobs c.cmd_id with
      | none => none
      | some t => if (pyStrip t).data.isEmpty then none else some (pyStrip t) }

/-- `get_recent_commands_with_outputs(limit)` from `init.py` (the
implementation `debug.py` imports). `file` is the content of
`commands.log` as lines, `none` when the file (or its directory) does not
exist. The source iterates `reversed(commands[:limit])` and accumulates
`has_outputs` when at least one output is attached. -/
def getRecent (file : Option (List String)) (limit : Nat)
    (blobs : String → Option String) : ReadResult :=
  match file with
  | none => { commands := [], has_outputs := false }
  | some lines =>
    match parseLines lines with
    | none => { commands := [], has_outputs := false }
    | some cmds =>
      let entries := ((cmds.take limit).reverse).map (mkEntry blobs)
      { commands := entries, has_outputs := entries.any (fun e => e.output.isSome) }

/-- The `cmd_id` field of a log line, shaped exactly as the reader's
`line.split('|', 3)` extracts it (third of four fields). -/
def lineCmdId (l : String) : Option String :=
  match pySplitPipe3 l with
  | [_, _, id, _] => some id
  | _ => none

/-- Python code-point length `len(s)`. -/
def pyLen (s : String) : Nat := s.data.length

/-- Python code-point slice `s[:n]`. -/
def pyTake (n : Nat) (s : String) : String := ⟨s.data.take n⟩

/-- A history dict as `build_debug_prompt` reads it: `timestamp` via
`cmd.get('timestamp', 'Unknown time')`, mandatory `command`, `exit_code`
and `output` via key-presence tests. -/
structure PromptCmd where
  timestamp : Option String
  command : String
  exit_code : Option Int
  output : Option String
deriving DecidableEq, Repr

/-- Python truthiness of an optional string (absent key or empty string is
falsy). -/
def truthyStr : Option String → Bool
  | none => false
  | some s => !s.data.isEmpty

/-- The success/failure indicator appended to a history line when the dict
has an `exit_code` key. -/
def statusSuffix : Option Int → String
  | none => ""
  | some e =>
    if e = 0 then " [SUCCESS]"
    else " [FAILED] (exit code: " ++ intToStr e ++ ")"

/-- The fenced output block: the output is truncated to 500 characters with
an explicit marker when longer (`output[:500] + "... (truncated)"`). -/
def renderOutputBlock (o : String) : String :=
  let out := if 500 < pyLen o then pyTake 500 o ++ "... (truncated)" else o
  "   Output:\n   ```\n   " ++ out ++ "\n   ```\n"

/-- One iteration of the history loop in `build_debug_prompt`: the numbered
command line, then the output block when the `output` key is present and
non-empty. -/
def renderPromptCmd (i : Nat) (c : PromptCmd) : String :=
  (natToStr (i + 1) ++ ". [" ++ c.timestamp.getD "Unknown time" ++ "] `"
      ++ c.command ++ "`" ++ statusSuffix c.exit_code ++ "\n")
    ++
    (match c.output with
     | none => ""
     | some o => if o.data.isEmpty then "" else renderOutputBlock o)

/-- The `enumerate(context["recent_commands"])` loop, numbering from `i`. -/
def renderPromptCmds : Nat → List PromptCmd → String
  | _, [] => ""
  | i, c :: cs => renderPromptCmd i c ++ renderPromptCmds (i + 1) cs

/-- The core prompt of automatic-analysis mode (the module-level
triple-quoted literal, including its indentation). -/
def autoBasePrompt : String :=
  "\n        I need you to analyze my recent terminal activity.\n        \n        Please:\n        1. Explain what these commands are doing\n        2. Identify any errors or inefficiencies\n        3. Suggest improvements or best practices\n        4. Provide educational context about the commands\n        \n        Format your response as markdown with clear sections.\n        "

/-- The core prompt of directed mode, with the caller's error message
interpolated. -/
def directedBasePrompt (error_message : String) : String :=
  "\n        I received this error in my terminal: \"" ++ error_message
    ++ "\"\n        \n        Please explain:\n        1. What this error means\n        2. The most likely cause\n        3. How to fix it\n        4. How to prevent it in the future\n        \n        Format your response as markdown with clear sections.\n        "

/-- The system-information block: emitted only when `os` or `shell` is
truthy, each field only when truthy. -/
def sysInfoBlock (os shell dir : Option String) : String :=
  if truthyStr os || truthyStr shell then
    "\n\nSystem information:"
      ++ (if truthyStr os then "\n- Operating System: " ++ os.getD "" else "")
      ++ (if truthyStr shell then "\n- Shell: " ++ shell.getD "" else "")
      ++ (if truthyStr dir then "\n- Current Directory: " ++ dir.getD "" else "")
  else ""

/-- The history section: header, numbered entries, closing instruction. -/
def historySection (auto_mode : Bool) (recent : List PromptCmd) : String :=
  if recent.isEmpty then ""
  else
    "\n\nRecent commands and their outputs:\n" ++ renderPromptCmds 0 recent
      ++ (if auto_mode then
            "\nPlease analyze these recent commands and their outputs, explaining what they're doing and identifying any issues."
          else
            "\nPlease analyze the error in the context of these recent commands and their outputs.")

/-- `build_debug_prompt(error_message, context, auto_mode)` from
`debug.py`: base prompt by mode, system information, then the rendered
command history (present only when `recent_commands` is present and
non-empty, both falsy as the empty list). -/
def build_debug_prompt (error_message : String) (os shell dir : Option String)
    (recent : List PromptCmd) (auto_mode : Bool) : String :=
  (if auto_mode then autoBasePrompt else directedBasePrompt error_message)
    ++ sysInfoBlock os shell dir ++ historySection auto_mode recent

/-! ## Helper lemmas about `takeLast` and the run of the logger -/

theorem takeLast_length_le (n : Nat) (l : List α) : (takeLast n l).length ≤ n := by
  simp [takeLast]

theorem take_append_take (n : Nat) (x y : List α) :
    (x ++ y.take n).take n = (x ++ y).take n := by
  rw [List.take_append_eq_append_take, List.take_append_eq_append_take,
    List.take_take, Nat.min_eq_left (Nat.sub_le n x.length)]

theorem takeLast_append_absorb (n : Nat) (a b : List α) :
    takeLast n (takeLast n a ++ b) = takeLast n (a ++ b) := by
  simp only [takeLast, List.reverse_append, List.reverse_reverse]
  rw [take_append_take]

theorem takeLast_map (f : α → β) (n : Nat) (l : List α) :
    takeLast n (l.map f) = (takeLast n l).map f := by
  simp only [takeLast, ← List.map_reverse, ← List.map_take]

theorem takeLast_append_of_le (n : Nat) (a b : List α) (h : n ≤ b.length) :
    takeLast n (a ++ b) = takeLast n b := by
  simp only [takeLast, List.reverse_append]
  rw [List.take_append_of_le_length (by simpa using h)]

/-- After at least one recorded (non-filtered) command, the ring log is the
5-line tail of the previous log extended by the rendered record lines. -/
theorem runLog_log_eq (rs : List RecordInput) :
    ∀ s : LogState, rs ≠ [] → (∀ r ∈ rs, startsWithTerminai r.cmd = false) →
      (runLog s rs).log = takeLast 5 (s.log ++ rs.map renderLine) := by
  induction rs with
  | nil => intro s h _; exact absurd rfl h
  | cons r rs ih =>
    intro s _ hf
    have hr : startsWithTerminai r.cmd = false := hf r (by simp)
    by_cases hrs : rs = []
    · subst hrs
      show (recordStep s r).log = _
      simp [recordStep, hr, rotate]
    · have step : runLog s (r :: rs) = runLog (recordStep s r) rs := rfl
      rw [step, ih (recordStep s r) hrs (fun x hx => hf x (by simp [hx]))]
      have hlog : (recordStep s r).log = takeLast 5 (s.log ++ [renderLine r]) := by
        simp [recordStep, hr, rotate]
      rw [hlog, takeLast_append_absorb]
      simp

/-! ## Helper lemmas about substrings and the pipe splitter -/

theorem prefOf_append (n y : List Char) : prefOf n (n ++ y) = true := by
  induction n with
  | nil => rfl
  | cons a as ih => simp [prefOf, ih]

theorem containsSub_decomp (n x y : List Char) :
    containsSub n (x ++ n ++ y) = true := by
  induction x with
  | nil =>
    cases n with
    | nil =>
      cases y with
      | nil => rfl
      | cons c t => simp [containsSub, prefOf]
    | cons m ms =>
      simp only [List.nil_append, containsSub, Bool.or_eq_true]
      exact Or.inl (prefOf_append (m :: ms) y)
  | cons c x' ih =>
    simp only [List.cons_append, containsSub, Bool.or_eq_true]
    exact Or.inr ih

theorem splitOnceChar_eq_some (c : Char) (l a b : List Char)
    (h : splitOnceChar c l = some (a, b)) : l = a ++ c :: b := by
  induction l generalizing a with
  | nil => simp [splitOnceChar] at h
  | cons x xs ih =>
    rw [splitOnceChar] at h
    by_cases hx : x == c
    · rw [if_pos hx] at h
      obtain ⟨rfl, rfl⟩ := by simpa using h
      simp [eq_of_beq hx]
    · rw [if_neg hx] at h
      cases hs : splitOnceChar c xs with
      | none => rw [hs] at h; simp at h
      | some p =>
        rw [hs] at h
        obtain ⟨a', b'⟩ := p
        obtain ⟨rfl, rfl⟩ := by simpa using h
        simp [ih _ hs]

theorem splitOnceChar_append (c : Char) (x y : List Char)
    (hx : x.all (fun d => !(d == c)) = true) :
    splitOnceChar c (x ++ c :: y) = some (x, y) := by
  induction x with
  | nil => simp [splitOnceChar]
  | cons a x' ih =>
    simp only [List.all_cons, Bool.and_eq_true, Bool.not_eq_true'] at hx
    simp [splitOnceChar, hx.1, ih hx.2]

/-- Rejoin split parts with the separator; inverse of `splitLimitChar`. -/
def joinSep (c : Char) : List (List Char) → List Char
  | [] => []
  | [x] => x
  | x :: xs => x ++ c :: joinSep c xs

theorem splitLimitChar_ne_nil (c : Char) (n : Nat) (l : List Char) :
    splitLimitChar c n l ≠ [] := by
  cases n with
  | zero => simp [splitLimitChar]
  | succ n => cases h : splitOnceChar c l <;> simp [splitLimitChar, h]

theorem splitLimitChar_join (c : Char) (n : Nat) : ∀ l : List Char,
    joinSep c (splitLimitChar c n l) = l := by
  induction n with
  | zero => intro l; simp [splitLimitChar, joinSep]
  | succ n ih =>
    intro l
    cases h : splitOnceChar c l with
    | none => simp [splitLimitChar, h, joinSep]
    | some p =>
      obtain ⟨a, b⟩ := p
      simp only [splitLimitChar, h]
      obtain ⟨x, xs, hx⟩ : ∃ x xs, splitLimitChar c n b = x :: xs := by
        cases hsp : splitLimitChar c n b with
        | nil => exact absurd hsp (splitLimitChar_ne_nil c n b)
        | cons x xs => exact ⟨x, xs, rfl⟩
      rw [hx]
      show a ++ c :: joinSep c (x :: xs) = l
      rw [← hx, ih b]
      exact (splitOnceChar_eq_some c l a b h).symm

theorem str_data_append (s t : String) : (s ++ t).data = s.data ++ t.data := by
  cases s; cases t; rfl

/-- Every log line whose third pipe-delimited field is `id` contains the
pipe-delimited pattern `|id|` that the garbage collector greps for. -/
theorem lineCmdId_containsSub (l : String) (id : String)
    (h : lineCmdId l = some id) :
    containsSub ("|" ++ id ++ "|").data l.data = true := by
  rw [lineCmdId] at h
  have hj := splitLimitChar_join '|' 3 l.data
  rcases hs : pySplitPipe3 l with _ | ⟨p0, _ | ⟨p1, _ | ⟨p2, _ | ⟨p3, _ | ⟨p4, r⟩⟩⟩⟩⟩ <;>
      rw [hs] at h
  case cons.cons.cons.cons.nil =>
    simp only [Option.some.injEq] at h
    subst h
    rw [pySplitPipe3] at hs
    rcases hq : splitLimitChar '|' 3 l.data with _ | ⟨q0, _ | ⟨q1, _ | ⟨q2, _ | ⟨q3, _ | ⟨q4, r'⟩⟩⟩⟩⟩ <;>
        rw [hq] at hs <;> simp at hs
    obtain ⟨rfl, rfl, rfl, rfl⟩ := hs
    rw [hq] at hj
    simp only [joinSep] at hj
    have hpat : ("|" ++ String.mk q2 ++ "|").data = '|' :: q2 ++ ['|'] := by
      simp [str_data_append]
    rw [hpat, ← hj]
    have hassoc : q0 ++ '|' :: (q1 ++ '|' :: (q2 ++ '|' :: q3))
        = (q0 ++ '|' :: q1) ++ ('|' :: q2 ++ ['|']) ++ q3 := by
      simp
    rw [hassoc]
    exact containsSub_decomp _ _ _
  all_goals exact absurd h (by simp)

/-! ## Helper lemmas about decimal rendering and `int(...)` parsing -/

theorem all_mono {p q : Char → Bool} (l : List Char) (h : l.all p = true)
    (himp : ∀ c, p c = true → q c = true) : l.all q = true := by
  rw [List.all_eq_true] at *
  exact fun c hc => himp c (h c hc)

theorem isDigitCh_bounds (c : Char) (h : isDigitCh c = true) :
    48 ≤ c.toNat ∧ c.toNat ≤ 57 := by
  simpa [isDigitCh, Bool.and_eq_true, decide_eq_true_eq] using h

theorem digit_beq_false (c x : Char) (h : isDigitCh c = true)
    (hx : x.toNat < 48 ∨ 57 < x.toNat) : (c == x) = false := by
  have hb := isDigitCh_bounds c h
  rw [beq_eq_false_iff_ne]
  intro he
  rw [he] at hb
  omega

theorem digit_not_space (c : Char) (h : isDigitCh c = true) :
    isPySpace c = false := by
  have hb := isDigitCh_bounds c h
  simp only [isPySpace, Bool.or_eq_false_iff, beq_eq_false_iff_ne, Ne]
  omega

theorem digitChar_spec (d : Nat) (h : d < 10) :
    isDigitCh (Nat.digitChar d) = true ∧ digitVal (Nat.digitChar d) = d := by
  interval_cases d <;> exact ⟨by decide, by decide⟩

theorem digitsVal_append_digit (l : List Char) (c : Char) :
    digitsVal (l ++ [c]) = digitsVal l * 10 + digitVal c := by
  simp [digitsVal, List.foldl_append]

theorem natDigitsAux_spec (fuel : Nat) : ∀ n, n < fuel →
    (natDigitsAux fuel n).all isDigitCh = true ∧
      digitsVal (natDigitsAux fuel n) = n ∧
      (n ≠ 0 → natDigitsAux fuel n ≠ []) := by
  induction fuel with
  | zero => intro n hn; omega
  | succ fuel ih =>
    intro n hn
    by_cases h0 : n = 0
    · subst h0
      refine ⟨by simp [natDigitsAux], by simp [natDigitsAux, digitsVal], by simp⟩
    · have hrec : natDigitsAux (fuel + 1) n
          = natDigitsAux fuel (n / 10) ++ [Nat.digitChar (n % 10)] := by
        simp [natDigitsAux, h0]
      have hdiv : n / 10 < fuel := by
        have := Nat.div_lt_self (Nat.pos_of_ne_zero h0) (show 1 < 10 by decide)
        omega
      obtain ⟨iha, ihv, -⟩ := ih (n / 10) hdiv
      have hd := digitChar_spec (n % 10) (Nat.mod_lt n (by omega))
      refine ⟨?_, ?_, ?_⟩
      · rw [hrec, List.all_append, iha]
        simp [hd.1]
      · rw [hrec, digitsVal_append_digit, ihv, hd.2]
        omega
      · intro _
        rw [hrec]
        simp

theorem natToStr_all_digits (n : Nat) : (natToStr n).data.all isDigitCh = true := by
  rw [natToStr]
  by_cases h : n = 0
  · rw [if_pos h]; decide
  · rw [if_neg h]
    exact (natDigitsAux_spec (n + 1) n (by omega)).1

theorem natToStr_ne_nil (n : Nat) : (natToStr n).data ≠ [] := by
  rw [natToStr]
  by_cases h : n = 0
  · rw [if_pos h]; decide
  · rw [if_neg h]
    exact (natDigitsAux_spec (n + 1) n (by omega)).2.2 h

theorem parseNatDigits_natToStr (n : Nat) :
    parseNatDigits (natToStr n).data = some n := by
  rw [parseNatDigits]
  rw [if_pos (by
    rw [Bool.and_eq_true, Bool.not_eq_true']
    refine ⟨?_, natToStr_all_digits n⟩
    rw [List.isEmpty_eq_false_iff_exists_mem]
    rcases hd : (natToStr n).data with _ | ⟨c, r⟩
    · exact absurd hd (natToStr_ne_nil n)
    · exact ⟨c, by simp⟩)]
  rw [natToStr]
  by_cases h : n = 0
  · rw [if_pos h, h]; decide
  · rw [if_neg h]
    exact congrArg some (natDigitsAux_spec (n + 1) n (by omega)).2.1

theorem intToStr_all (i : Int) :
    (intToStr i).data.all (fun c => isDigitCh c || c == '-') = true := by
  rw [intToStr]
  by_cases h : i < 0
  · rw [if_pos h, str_data_append, List.all_append]
    rw [Bool.and_eq_true]
    refine ⟨by decide, ?_⟩
    exact all_mono _ (natToStr_all_digits i.natAbs) (fun c hc => by simp [hc])
  · rw [if_neg h]
    exact all_mono _ (natToStr_all_digits i.natAbs) (fun c hc => by simp [hc])

theorem intToStr_no_pipe (i : Int) :
    (intToStr i).data.all (fun c => !(c == '|')) = true := by
  refine all_mono _ (intToStr_all i) (fun c hc => ?_)
  rw [Bool.or_eq_true] at hc
  rcases hc with hc | hc
  · simp [digit_beq_false c '|' hc (Or.inr (by decide))]
  · rw [eq_of_beq hc]; decide

theorem intToStr_not_space (i : Int) :
    (intToStr i).data.all (fun c => !(isPySpace c)) = true := by
  refine all_mono _ (intToStr_all i) (fun c hc => ?_)
  rw [Bool.or_eq_true] at hc
  rcases hc with hc | hc
  · simp [digit_not_space c hc]
  · rw [eq_of_beq hc]; decide

theorem dropWhile_all_false {p : Char → Bool} (l : List Char)
    (h : l.all (fun c => !(p c)) = true) : l.dropWhile p = l := by
  cases l with
  | nil => rfl
  | cons a l =>
    simp only [List.all_cons, Bool.and_eq_true, Bool.not_eq_true'] at h
    simp [List.dropWhile_cons, h.1]

/-- Stripping a string with no whitespace anywhere is the identity. -/
theorem strip_noop (l : List Char)
    (h : l.all (fun c => !(isPySpace c)) = true) : pyStripList l = l := by
  rw [pyStripList, dropWhile_all_false l h, dropWhile_all_false l.reverse (by
    rw [List.all_eq_true] at h ⊢
    exact fun c hc => h c (List.mem_reverse.mp hc))]
  exact List.reverse_reverse l

theorem pyInt_intToStr (i : Int) : pyInt (intToStr i) = some i := by
  have hstrip : pyStripList (intToStr i).data = (intToStr i).data :=
    strip_noop _ (intToStr_not_space i)
  by_cases h : i < 0
  · have hdata : (intToStr i).data = '-' :: (natToStr i.natAbs).data := by
      rw [intToStr, if_pos h, str_data_append]
      rfl
    rw [pyInt, hstrip, hdata]
    simp [parseNatDigits_natToStr]
    rw [abs_of_neg h, neg_neg]
  · have hdata : (intToStr i).data = (natToStr i.natAbs).data := by
      rw [intToStr, if_neg h]
    rw [pyInt, hstrip, hdata]
    rcases hd : (natToStr i.natAbs).data with _ | ⟨c, rest⟩
    · exact absurd hd (natToStr_ne_nil i.natAbs)
    · have hc : isDigitCh c = true := by
        have := natToStr_all_digits i.natAbs
        rw [hd, List.all_cons, Bool.and_eq_true] at this
        exact this.1
      have hcm : (c == '-') = false := digit_beq_false c '-' hc (Or.inl (by decide))
      have hcp : (c == '+') = false := digit_beq_false c '+' hc (Or.inl (by decide))
      have hp : parseNatDigits (c :: rest) = some i.natAbs := by
        rw [← hd]; exact parseNatDigits_natToStr _
      simp [hcm, hcp, hp]
      omega

theorem string_mk_data (s : String) : String.mk s.data = s := rfl

theorem renderLine_data (r : RecordInput) :
    (renderLine r).data
      = r.ts.data ++ '|' :: ((intToStr r.exit).data
          ++ '|' :: (r.cmd_id.data ++ '|' :: r.cmd.data)) := by
  simp [renderLine, str_data_append]

theorem splitLimitChar_succ_some (c : Char) (n : Nat) (l a b : List Char)
    (h : splitOnceChar c l = some (a, b)) :
    splitLimitChar c (n + 1) l = a :: splitLimitChar c n b := by
  simp [splitLimitChar, h]

/-- Splitting `a|b|c|d` with `maxsplit = 3` recovers the four fields when
the first three contain no pipe (the last may). -/
theorem splitLimitChar3 (a b c d : List Char)
    (ha : a.all (fun x => !(x == '|')) = true)
    (hb : b.all (fun x => !(x == '|')) = true)
    (hc : c.all (fun x => !(x == '|')) = true) :
    splitLimitChar '|' 3 (a ++ '|' :: (b ++ '|' :: (c ++ '|' :: d)))
      = [a, b, c, d] := by
  have e1 := splitOnceChar_append '|' a (b ++ '|' :: (c ++ '|' :: d)) ha
  have e2 := splitOnceChar_append '|' b (c ++ '|' :: d) hb
  have e3 := splitOnceChar_append '|' c d hc
  show splitLimitChar '|' (2 + 1) _ = _
  rw [splitLimitChar_succ_some '|' 2 _ _ _ e1]
  show _ :: splitLimitChar '|' (1 + 1) _ = _
  rw [splitLimitChar_succ_some '|' 1 _ _ _ e2]
  show _ :: _ :: splitLimitChar '|' (0 + 1) _ = _
  rw [splitLimitChar_succ_some '|' 0 _ _ _ e3]
  rfl

/-! ## Helper definitions and lemmas about the reader's parse loop -/

/-- A log line the reader's loop turns into a record: non-blank after
stripping, exactly four pipe-delimited fields, and an exit-code field
accepted by `int(...)`. -/
def wellFormedLine (l : String) : Bool :=
  !(pyStrip l).data.isEmpty &&
    (match pySplitPipe3 (pyStrip l) with
     | [_, ec, _, _] => (pyInt ec).isSome
     | _ => false)

/-- A log line the reader's loop silently skips: blank after stripping, or
fewer than four pipe-delimited fields. -/
def junkLine (l : String) : Bool :=
  (pyStrip l).data.isEmpty || (pySplitPipe3 (pyStrip l)).length < 4

/-- The record the reader builds from a well-formed line. -/
def parsedOf (l : String) : ParsedCommand :=
  match pySplitPipe3 (pyStrip l) with
  | [ts, ec, id, cmd] => ⟨ts, (pyInt ec).getD 0, id, cmd⟩
  | _ => ⟨"", 0, "", ""⟩

theorem parseLines_cons_wf (l : String) (ls : List String)
    (h : wellFormedLine l = true) :
    parseLines (l :: ls) = (parseLines ls).map (fun cs => parsedOf l :: cs) := by
  rw [wellFormedLine, Bool.and_eq_true] at h
  obtain ⟨hne, hm⟩ := h
  rw [parseLines]
  rw [Bool.not_eq_true'] at hne
  rw [if_neg (by simp [hne])]
  rcases hs : pySplitPipe3 (pyStrip l) with _ | ⟨p0, _ | ⟨p1, _ | ⟨p2, _ | ⟨p3, _ | ⟨p4, r⟩⟩⟩⟩⟩ <;>
      rw [hs] at hm <;> try simp at hm
  cases hint : pyInt p1 with
  | none => rw [hint] at hm; simp at hm
  | some n =>
    simp only [hint]
    rw [parsedOf, hs]
    simp [hint]

theorem parseLines_cons_junk (l : String) (ls : List String)
    (h : junkLine l = true) :
    parseLines (l :: ls) = parseLines ls := by
  rw [junkLine, Bool.or_eq_true] at h
  rw [parseLines]
  rcases h with h | h
  · rw [if_pos h]
  · have hne : ¬((pyStrip l).data.isEmpty = true) ∨ (pyStrip l).data.isEmpty = true := by
      tauto
    rcases hne with hne | hne
    · rw [if_neg hne]
      rcases hs : pySplitPipe3 (pyStrip l) with _ | ⟨p0, _ | ⟨p1, _ | ⟨p2, _ | ⟨p3, _ | ⟨p4, r⟩⟩⟩⟩⟩ <;>
          rw [hs] at h <;> set_option linter.unnecessarySeqFocus false in simp at h ⊢
    · rw [if_pos hne]

theorem parseLines_all_wf (lines : List String)
    (h : ∀ l ∈ lines, wellFormedLine l = true) :
    parseLines lines = some (lines.map parsedOf) := by
  induction lines with
  | nil => rfl
  | cons l ls ih =>
    rw [parseLines_cons_wf l ls (h l (by simp)),
      ih (fun x hx => h x (by simp [hx]))]
    rfl

/-! ## Theorems -/

/-- C9: when the command log file (or its directory) does not exist, the
context reader returns an empty history with `has_outputs = false`, for
every limit and every state of the blob store, and (being a total
function) raises no error. -/
theorem missing_log_gives_empty_history (limit : Nat)
    (blobs : String → Option String) :
    getRecent none limit blobs = { commands := [], has_outputs := false } := rfl

/-- C10: rotation is idempotent — rotating the command log twice with no
intervening writes yields the same file contents as rotating once. -/
theorem rotate_idempotent (log : List String) : rotate (rotate log) = rotate log := by
  simp [rotate, takeLast, List.take_take]

/-- C7: a command whose text begins with `terminai` is filtered out: the
logging hook leaves the entire on-disk state — in particular the command
ring log — unchanged, whatever state it is in. -/
theorem terminai_command_never_logged (s : LogState) (r : RecordInput)
    (h : startsWithTerminai r.cmd = true) : recordStep s r = s := by
  simp [recordStep, h]

/-- Witness for C7: a concrete `terminai debug` invocation in a concrete
state is not logged. -/
theorem terminai_command_never_logged_witness :
    recordStep ⟨["t0|0|9|ls"], []⟩ ⟨"t1", 0, "10", "terminai debug", none⟩
      = ⟨["t0|0|9|ls"], []⟩ :=
  terminai_command_never_logged _ _ (by decide)

/-- C4 (evaluation at the failing input): with two chronological records in
the log and `limit = 1`, the reader returns the *oldest* record (`first`),
because the source slices `commands[:limit]` before reversing — the claim's
"the `limit` most recent ones" would require `second`. -/
theorem reader_limit_returns_oldest :
    (getRecent
        (some ["2024-01-01 10:00:00|0|1|first", "2024-01-01 10:00:01|0|2|second"])
        1 (fun _ => none)).commands
      = [{ timestamp := "2024-01-01 10:00:00", command := "first",
           exit_code := 0, output := none }] := by
  decide

/-- C3 (counterexample to the claim as stated): the line `"a|b|c|d"` has
exactly four pipe-delimited fields — well-formed in the claim's sense — yet
the reader returns *zero* records for a file holding only that line: the
non-integer exit-code field makes `int(...)` raise, and the exception
aborts the whole read. -/
theorem four_field_line_yields_no_record :
    (pySplitPipe3 (pyStrip "a|b|c|d")).length = 4 ∧
      (getRecent (some ["a|b|c|d"]) 5 (fun _ => none)).commands = [] := by
  decide

/-- C3 (amended): for every log file in which every line is well-formed in
the code's sense — non-blank, four pipe-delimited fields, *and* an
integer-parseable exit-code field — the reader's parse loop yields exactly
one record per line, in order, and the returned history holds
`min limit #lines` records. (Without the integer condition the claim
fails: see `four_field_line_yields_no_record`.) -/
theorem reader_one_record_per_wellformed_line (lines : List String)
    (limit : Nat) (blobs : String → Option String)
    (h : ∀ l ∈ lines, wellFormedLine l = true) :
    parseLines lines = some (lines.map parsedOf) ∧
      (getRecent (some lines) limit blobs).commands.length
        = min limit lines.length := by
  have hp := parseLines_all_wf lines h
  refine ⟨hp, ?_⟩
  simp [getRecent, hp, List.length_take]

/-- Witness for C3 (amended): a concrete two-line file read with limit 5. -/
theorem reader_one_record_per_wellformed_line_witness :
    parseLines ["2024-01-01 10:00:00|0|1|ls", "2024-01-01 10:00:01|1|2|make"]
        = some (["2024-01-01 10:00:00|0|1|ls",
            "2024-01-01 10:00:01|1|2|make"].map parsedOf) ∧
      (getRecent (some ["2024-01-01 10:00:00|0|1|ls",
          "2024-01-01 10:00:01|1|2|make"]) 5 (fun _ => none)).commands.length
        = min 5 (["2024-01-01 10:00:00|0|1|ls",
            "2024-01-01 10:00:01|1|2|make"] : List String).length :=
  reader_one_record_per_wellformed_line _ 5 (fun _ => none) (by decide)

/-- C6: a log file holding one well-formed line and one junk line — blank,
or truncated to fewer than four fields — in either order yields exactly the
one record parsed from the well-formed line; the junk line is silently
skipped and is not fatal to the read. -/
theorem reader_skips_malformed_line (good junk : String) (limit : Nat)
    (blobs : String → Option String)
    (hg : wellFormedLine good = true) (hj : junkLine junk = true)
    (hl : 1 ≤ limit) :
    (getRecent (some [good, junk]) limit blobs).commands
        = [mkEntry blobs (parsedOf good)] ∧
      (getRecent (some [junk, good]) limit blobs).commands
        = [mkEntry blobs (parsedOf good)] := by
  have h1 : parseLines [good, junk] = some [parsedOf good] := by
    rw [parseLines_cons_wf good [junk] hg, parseLines_cons_junk junk [] hj]
    rfl
  have h2 : parseLines [junk, good] = some [parsedOf good] := by
    rw [parseLines_cons_junk junk [good] hj, parseLines_cons_wf good [] hg]
    rfl
  have htake : List.take limit [parsedOf good] = [parsedOf good] :=
    List.take_of_length_le (by simpa using hl)
  constructor <;> simp [getRecent, h1, h2, htake]

/-- Witness for C6: a concrete well-formed line plus a concrete truncated
line yield exactly one record, in both file orders. -/
theorem reader_skips_malformed_line_witness :
    (getRecent (some ["2024-01-01 10:00:00|0|1|ls", "oops|1"]) 5
        (fun _ => none)).commands
        = [mkEntry (fun _ => none) (parsedOf "2024-01-01 10:00:00|0|1|ls")] ∧
      (getRecent (some ["oops|1", "2024-01-01 10:00:00|0|1|ls"]) 5
          (fun _ => none)).commands
        = [mkEntry (fun _ => none) (parsedOf "2024-01-01 10:00:00|0|1|ls")] :=
  reader_skips_malformed_line "2024-01-01 10:00:00|0|1|ls" "oops|1" 5
    (fun _ => none) (by decide) (by decide) (by decide)

/-- C5 (amended): a written record line round-trips through the reader —
same timestamp, exit code, command id and command text — provided the
timestamp and command id contain no `|`, the rendered line is unchanged by
`strip()` (no leading whitespace in the timestamp, no trailing whitespace
in the command text), and no field contains a newline (so that the line
model matches the physical one-record-per-line file). The command text may
contain pipes: `split('|', 3)` keeps them in the final field.
Without the whitespace proviso the claim fails:
see `trailing_space_not_roundtripped`. -/
theorem record_roundtrip (ts id cmd : String) (ec : Int)
    (hts_pipe : ts.data.all (fun c => !(c == '|')) = true)
    (hid_pipe : id.data.all (fun c => !(c == '|')) = true)
    (_hts_nl : ts.data.all (fun c => !(c == '\n') && !(c == '\r')) = true)
    (_hid_nl : id.data.all (fun c => !(c == '\n') && !(c == '\r')) = true)
    (_hcmd_nl : cmd.data.all (fun c => !(c == '\n') && !(c == '\r')) = true)
    (hstrip : pyStrip (renderLine ⟨ts, ec, id, cmd, none⟩)
        = renderLine ⟨ts, ec, id, cmd, none⟩) :
    parseLines [renderLine ⟨ts, ec, id, cmd, none⟩]
      = some [⟨ts, ec, id, cmd⟩] := by
  have hLdata := renderLine_data ⟨ts, ec, id, cmd, none⟩
  have hne : (renderLine ⟨ts, ec, id, cmd, none⟩).data.isEmpty = false := by
    rw [hLdata]
    cases ts.data <;> rfl
  have hsplit : pySplitPipe3 (renderLine ⟨ts, ec, id, cmd, none⟩)
      = [ts, intToStr ec, id, cmd] := by
    rw [pySplitPipe3, hLdata,
      splitLimitChar3 _ _ _ _ hts_pipe (intToStr_no_pipe ec) hid_pipe]
    simp [string_mk_data]
  rw [parseLines, hstrip, if_neg (by simp [hne]), hsplit]
  simp [pyInt_intToStr, parseLines]

/-- Witness for C5 (amended): a concrete record — with pipes inside the
command text — read back unchanged. -/
theorem record_roundtrip_witness :
    parseLines [renderLine ⟨"2024-01-01 10:00:00", 2, "1712000", "grep foo | wc -l", none⟩]
      = some [⟨"2024-01-01 10:00:00", 2, "1712000", "grep foo | wc -l"⟩] :=
  record_roundtrip "2024-01-01 10:00:00" "1712000" "grep foo | wc -l" 2
    (by decide) (by decide) (by decide) (by decide) (by decide) (by decide)

/-- C5 (counterexample to the claim as stated): a record whose command text
ends in a space does not round-trip — the reader's `line.strip()` removes
the trailing space, so `"ls "` is read back as `"ls"`. -/
theorem trailing_space_not_roundtripped :
    parseLines [renderLine ⟨"2024-01-01 10:00:00", 0, "17", "ls ", none⟩]
        = some [⟨"2024-01-01 10:00:00", 0, "17", "ls"⟩] ∧
      ("ls" : String) ≠ "ls " := by
  decide

/-- C2 (amended): after a logging step (rotation plus garbage collection),
(i) no blob whose command id is the `cmd_id` field of a retained log record
is deleted — in particular no blob of a retained record is lost — and
(ii) every surviving blob's pipe-delimited id `|id|` occurs as a substring
of some retained log line. The converse of (ii) at the level of record ids
fails (see `orphan_blob_survives_gc`): a blob survives as an orphan when
`|id|` occurs inside a retained line other than as its `cmd_id` field. -/
theorem gc_blob_invariant (s : LogState) (r : RecordInput)
    (h : startsWithTerminai r.cmd = false) :
    (∀ b ∈ captureBlobs s r,
        (∃ l ∈ (recordStep s r).log, lineCmdId l = some b.1) →
          b ∈ (recordStep s r).blobs) ∧
    (∀ b ∈ (recordStep s r).blobs,
        ∃ l ∈ (recordStep s r).log,
          containsSub ("|" ++ b.1 ++ "|").data l.data = true) := by
  have hstep : recordStep s r
      = { log := rotate (s.log ++ [renderLine r])
          blobs := gcBlobs (rotate (s.log ++ [renderLine r])) (captureBlobs s r) } := by
    simp [recordStep, h]
  rw [hstep]
  constructor
  · rintro b hb ⟨l, hl, hid⟩
    rw [gcBlobs, List.mem_filter]
    refine ⟨hb, ?_⟩
    rw [grepPipedId, List.any_eq_true]
    exact ⟨l, hl, lineCmdId_containsSub l b.1 hid⟩
  · intro b hb
    rw [gcBlobs, List.mem_filter, grepPipedId, List.any_eq_true] at hb
    exact hb.2

/-- Witness for C2 (amended): a concrete step in which the current command's
blob and a still-referenced older blob are both kept. -/
theorem gc_blob_invariant_witness :
    (∀ b ∈ captureBlobs ⟨["t1|0|7|ls"], [("7", "out7")]⟩
        ⟨"t2", 0, "8", "make", some "out8"⟩,
        (∃ l ∈ (recordStep ⟨["t1|0|7|ls"], [("7", "out7")]⟩
            ⟨"t2", 0, "8", "make", some "out8"⟩).log, lineCmdId l = some b.1) →
          b ∈ (recordStep ⟨["t1|0|7|ls"], [("7", "out7")]⟩
            ⟨"t2", 0, "8", "make", some "out8"⟩).blobs) ∧
    (∀ b ∈ (recordStep ⟨["t1|0|7|ls"], [("7", "out7")]⟩
        ⟨"t2", 0, "8", "make", some "out8"⟩).blobs,
        ∃ l ∈ (recordStep ⟨["t1|0|7|ls"], [("7", "out7")]⟩
          ⟨"t2", 0, "8", "make", some "out8"⟩).log,
          containsSub ("|" ++ b.1 ++ "|").data l.data = true) :=
  gc_blob_invariant ⟨["t1|0|7|ls"], [("7", "out7")]⟩
    ⟨"t2", 0, "8", "make", some "out8"⟩ (by decide)

/-- C1: for every sequence of more than 5 recorded (non-`terminai`)
commands, from any starting state, the command ring log after rotation
contains exactly the rendered records of the last 5 commands, in
chronological order (oldest first, newest last); and after every step of
the run the log holds at most 5 records. -/
theorem ring_log_keeps_last_five (s0 : LogState) (rs : List RecordInput)
    (hf : ∀ r ∈ rs, startsWithTerminai r.cmd = false)
    (hM : 5 < rs.length) :
    (runLog s0 rs).log = (takeLast 5 rs).map renderLine ∧
      ∀ n, 0 < n → (runLog s0 (rs.take n)).log.length ≤ 5 := by
  constructor
  · have hne : rs ≠ [] := by
      intro h; rw [h] at hM; simp at hM
    rw [runLog_log_eq rs s0 hne hf,
      takeLast_append_of_le 5 s0.log (rs.map renderLine) (by simp; omega),
      takeLast_map]
  · intro n hn
    have hne : rs.take n ≠ [] := by
      intro h
      have hlen := congrArg List.length h
      rw [List.length_take] at hlen
      simp only [List.length_nil, Nat.min_eq_zero_iff] at hlen
      rcases hlen with h' | h' <;> omega
    rw [runLog_log_eq (rs.take n) s0 hne
      (fun r hr => hf r (List.mem_of_mem_take hr))]
    exact takeLast_length_le 5 _

/-- Witness for C1: six concrete recorded commands from a fresh state leave
exactly the last five, oldest first. -/
theorem ring_log_keeps_last_five_witness :
    (runLog ⟨[], []⟩
        [⟨"t1", 0, "1", "ls", none⟩, ⟨"t2", 1, "2", "make", none⟩,
         ⟨"t3", 0, "3", "pwd", none⟩, ⟨"t4", 0, "4", "git status", none⟩,
         ⟨"t5", 2, "5", "cat x", none⟩, ⟨"t6", 0, "6", "echo done", none⟩]).log
      = (takeLast 5
          [⟨"t1", 0, "1", "ls", none⟩, ⟨"t2", 1, "2", "make", none⟩,
           ⟨"t3", 0, "3", "pwd", none⟩, ⟨"t4", 0, "4", "git status", none⟩,
           ⟨"t5", 2, "5", "cat x", none⟩,
           ⟨"t6", 0, "6", "echo done", none⟩]).map renderLine :=
  (ring_log_keeps_last_five ⟨[], []⟩ _ (by decide) (by decide)).1

/-- C2 (counterexample to the claim as stated): a reachable six-command run
from a fresh state after which the blob `output_111.log` still exists even
though no retained log record has command id `111` (its owning record was
rotated out). The garbage collector's `grep -q "|111|"` also matches the
substring `|111|` inside the *command text* of the retained record
`t2|0|222|echo a|111|b`, so the orphaned blob is never deleted. -/
theorem orphan_blob_survives_gc :
    ((runLog ⟨[], []⟩
        [⟨"t1", 0, "111", "c1", some "hello"⟩,
         ⟨"t2", 0, "222", "echo a|111|b", none⟩,
         ⟨"t3", 0, "333", "c3", none⟩,
         ⟨"t4", 0, "444", "c4", none⟩,
         ⟨"t5", 0, "555", "c5", none⟩,
         ⟨"t6", 0, "666", "c6", none⟩]).blobs.map Prod.fst = ["111"]) ∧
      ∀ l ∈ (runLog ⟨[], []⟩
        [⟨"t1", 0, "111", "c1", some "hello"⟩,
         ⟨"t2", 0, "222", "echo a|111|b", none⟩,
         ⟨"t3", 0, "333", "c3", none⟩,
         ⟨"t4", 0, "444", "c4", none⟩,
         ⟨"t5", 0, "555", "c5", none⟩,
         ⟨"t6", 0, "666", "c6", none⟩]).log, lineCmdId l ≠ some "111" := by
  decide

/-! ## Substring occurrence in the assembled prompt -/

/-- `a` occurs contiguously inside `b`. -/
def infixOf (a b : List Char) : Prop := ∃ x y, b = x ++ a ++ y

/-- `a` occurs contiguously inside the string `b`. -/
def strInfixP (a b : String) : Prop := infixOf a.data b.data

theorem infixOf_refl (a : List Char) : infixOf a a := ⟨[], [], by simp⟩

theorem infixOf_append_left (a b c : List Char) (h : infixOf a b) :
    infixOf a (c ++ b) := by
  obtain ⟨x, y, rfl⟩ := h
  exact ⟨c ++ x, y, by simp⟩

theorem infixOf_append_right (a b c : List Char) (h : infixOf a b) :
    infixOf a (b ++ c) := by
  obtain ⟨x, y, rfl⟩ := h
  exact ⟨x, y ++ c, by simp⟩

theorem infixOf_trans (a b c : List Char) (hab : infixOf a b)
    (hbc : infixOf b c) : infixOf a c := by
  obtain ⟨x, y, rfl⟩ := hab
  obtain ⟨u, v, rfl⟩ := hbc
  exact ⟨u ++ x, y ++ v, by simp⟩

/-- The rendering of the `j`-th history entry occurs inside the rendering
of the whole (enumerated) history. -/
theorem renderPromptCmds_decomp (l : List PromptCmd) : ∀ i j c, l[j]? = some c →
    infixOf (renderPromptCmd (i + j) c).data (renderPromptCmds i l).data := by
  induction l with
  | nil => intro i j c h; simp at h
  | cons d ds ih =>
    intro i j c h
    cases j with
    | zero =>
      simp only [List.getElem?_cons_zero, Option.some.injEq] at h
      cases h
      rw [Nat.add_zero]
      show infixOf (renderPromptCmd i d).data
        (renderPromptCmd i d ++ renderPromptCmds (i + 1) ds).data
      rw [str_data_append]
      exact infixOf_append_right _ _ _ (infixOf_refl _)
    | succ j =>
      have h' : ds[j]? = some c := by simpa using h
      have hx := ih (i + 1) j c h'
      show infixOf (renderPromptCmd (i + (j + 1)) c).data
        (renderPromptCmd i d ++ renderPromptCmds (i + 1) ds).data
      rw [str_data_append]
      have harith : i + (j + 1) = i + 1 + j := by omega
      rw [harith]
      exact infixOf_append_left _ _ _ hx

/-- C8: for every history record whose attached output exceeds 500
characters, the assembled debug prompt contains that output capped at
exactly 500 characters followed by the explicit `"... (truncated)"`
marker; an output of at most 500 characters is rendered unmodified — its
fenced block is exactly the output with no marker — and appears as such in
the prompt. -/
theorem debug_prompt_truncates_output (em : String) (os sh dir : Option String)
    (recent : List PromptCmd) (auto : Bool) (j : Nat) (c : PromptCmd)
    (o : String) (hj : recent[j]? = some c) (ho : c.output = some o) :
    (500 < pyLen o →
        strInfixP (pyTake 500 o ++ "... (truncated)")
            (build_debug_prompt em os sh dir recent auto)
          ∧ pyLen (pyTake 500 o) = 500) ∧
      (pyLen o ≤ 500 → o.data ≠ [] →
        renderOutputBlock o = "   Output:\n   ```\n   " ++ o ++ "\n   ```\n" ∧
          strInfixP ("   Output:\n   ```\n   " ++ o ++ "\n   ```\n")
            (build_debug_prompt em os sh dir recent auto)) := by
  have hne : recent.isEmpty = false := by
    cases recent with
    | nil => simp at hj
    | cons a l => rfl
  -- the fenced output block occurs in the rendering of entry `j`
  have hblock : o.data.isEmpty = false →
      infixOf (renderOutputBlock o).data (renderPromptCmd j c).data := by
    intro hoe
    refine ⟨(natToStr (j + 1) ++ ". [" ++ c.timestamp.getD "Unknown time"
      ++ "] `" ++ c.command ++ "`" ++ statusSuffix c.exit_code ++ "\n").data,
      [], ?_⟩
    simp [renderPromptCmd, ho, hoe, str_data_append, List.append_assoc]
  -- the rendering of entry `j` occurs in the prompt
  have hfull : (build_debug_prompt em os sh dir recent auto).data
      = ((if auto then autoBasePrompt else directedBasePrompt em)
            ++ sysInfoBlock os sh dir
            ++ "\n\nRecent commands and their outputs:\n").data
          ++ (renderPromptCmds 0 recent).data
          ++ ((if auto then
                "\nPlease analyze these recent commands and their outputs, explaining what they're doing and identifying any issues."
              else
                "\nPlease analyze the error in the context of these recent commands and their outputs." : String)).data := by
    simp [build_debug_prompt, historySection, hne, str_data_append,
      List.append_assoc]
  have hsec : infixOf (renderPromptCmds 0 recent).data
      (build_debug_prompt em os sh dir recent auto).data := ⟨_, _, hfull⟩
  have hcmds := renderPromptCmds_decomp recent 0 j c hj
  rw [Nat.zero_add] at hcmds
  have hprompt : infixOf (renderPromptCmd j c).data
      (build_debug_prompt em os sh dir recent auto).data :=
    infixOf_trans _ _ _ hcmds hsec
  constructor
  · intro hlong
    have hoe : o.data.isEmpty = false := by
      cases hd : o.data with
      | nil => rw [pyLen] at hlong; simp [hd] at hlong
      | cons a l => rfl
    have htarget : infixOf (pyTake 500 o ++ "... (truncated)").data
        (renderOutputBlock o).data := by
      refine ⟨"   Output:\n   ```\n   ".data, "\n   ```\n".data, ?_⟩
      simp [renderOutputBlock, hlong, str_data_append, List.append_assoc]
    refine ⟨infixOf_trans _ _ _ (infixOf_trans _ _ _ htarget (hblock hoe))
      hprompt, ?_⟩
    rw [pyLen] at hlong
    simp only [pyLen, pyTake, List.length_take]
    omega
  · intro hshort hone
    have hoe : o.data.isEmpty = false := by
      cases hd : o.data with
      | nil => exact absurd hd hone
      | cons a l => rfl
    have hnotlong : ¬(500 < pyLen o) := by omega
    have hblockeq : renderOutputBlock o
        = "   Output:\n   ```\n   " ++ o ++ "\n   ```\n" := by
      simp [renderOutputBlock, hnotlong]
    refine ⟨hblockeq, ?_⟩
    have hself : infixOf ("   Output:\n   ```\n   " ++ o ++ "\n   ```\n").data
        (renderOutputBlock o).data := by
      rw [hblockeq]
      exact infixOf_refl _
    exact infixOf_trans _ _ _ (infixOf_trans _ _ _ hself (hblock hoe)) hprompt

/-- Witness for C8: a 501-character output in a one-record history is
rendered in the prompt truncated to exactly 500 characters plus marker. -/
theorem debug_prompt_truncates_output_witness :
    500 < pyLen (String.mk (List.replicate 501 'a')) ∧
      strInfixP (pyTake 500 (String.mk (List.replicate 501 'a')) ++ "... (truncated)")
          (build_debug_prompt "err" (some "Linux") (some "bash") (some "/home")
            [⟨none, "make", none, some (String.mk (List.replicate 501 'a'))⟩] false)
        ∧ pyLen (pyTake 500 (String.mk (List.replicate 501 'a'))) = 500 := by
  have hlen : pyLen (String.mk (List.replicate 501 'a')) = 501 := by
    rw [show pyLen (String.mk (List.replicate 501 'a'))
      = (List.replicate 501 'a').length from rfl, List.length_replicate]
  have h := debug_prompt_truncates_output "err" (some "Linux") (some "bash")
    (some "/home")
    [⟨none, "make", none, some (String.mk (List.replicate 501 'a'))⟩] false 0
    ⟨none, "make", none, some (String.mk (List.replicate 501 'a'))⟩
    (String.mk (List.replicate 501 'a')) rfl rfl
  exact ⟨by omega, h.1 (by omega)⟩

end TerminAI

